import Mathlib

/-!
# Verification of the Spined shelf-scan book-identification pipeline

Shallow embedding of `server/bookMatcher.ts` (the fuzzy matching engine):
`clusterFragments`, `levenshtein`, `normalizedSimilarity`, `scoreMatch`,
`searchGoogleBooksForCluster` and `matchBooksFromOCR`.

Modelling conventions:
* JavaScript numbers are modelled as exact rationals (`ℚ`); pixel coordinates,
  similarity scores and thresholds never leave rational arithmetic in the
  source's algorithms.
* JavaScript strings are modelled as `List Char`; ASCII lowercasing is used
  for `toLowerCase` (the regex strip `[^a-z0-9\s]` removes every character
  that ASCII lowercasing and Unicode lowercasing could disagree on for the
  inputs this pipeline sees).
* The injected external search (Google Books over `fetch`) is modelled as a
  function parameter; its fallibility is an `Except` value.
* `Array.prototype.sort` (a stable sort since ES2019) is modelled by
  `List.insertionSort`, which is also stable for the same comparator preorder.
-/

namespace Spined

/-- Characters matched by the regex class `\s` (ASCII part): space, tab,
newline, carriage return, vertical tab, form feed. -/
def isWsChar (c : Char) : Bool :=
  c == ' ' || c == '\t' || c == '\n' || c == '\r' ||
    c == Char.ofNat 11 || c == Char.ofNat 12

/-- `String.prototype.trim`: drop whitespace from both ends. -/
def trimWs (l : List Char) : List Char :=
  ((l.dropWhile isWsChar).reverse.dropWhile isWsChar).reverse

/-- Characters kept by `replace(/[^a-z0-9\s]/g, "")` (applied after
lowercasing): lowercase letters, digits, whitespace. -/
def isKeptChar (c : Char) : Bool :=
  ('a' ≤ c && c ≤ 'z') || ('0' ≤ c && c ≤ '9') || isWsChar c

/-- `s.toLowerCase().replace(/[^a-z0-9\s]/g, "").trim()` — the normalization
applied by `scoreMatch` to the cluster text and the book title. -/
def normalizeText (l : List Char) : List Char :=
  trimWs ((l.map Char.toLower).filter isKeptChar)

/-- `String.prototype.includes`: `hay` contains `needle` as a contiguous
substring. -/
def includesSub (hay needle : List Char) : Bool :=
  match hay with
  | [] => needle.isEmpty
  | _ :: t => needle.isPrefixOf hay || includesSub t needle

/-- Splitting on runs of whitespace into raw pieces: the pieces between
consecutive whitespace characters (empty pieces for adjacent whitespace).
This is the standard one-pass splitter; `splitWs` below collapses it to the
exact semantics of `String.prototype.split(/\s+/)`. -/
def splitRaw (l : List Char) : List (List Char) :=
  l.foldr
    (fun c acc =>
      if isWsChar c then [] :: acc
      else
        match acc with
        | [] => [[c]]
        | t :: ts => (c :: t) :: ts)
    [[]]

/-- `String.prototype.split(/\s+/)`: the maximal non-whitespace runs, plus an
empty leading piece when the string starts with whitespace and an empty
trailing piece when it ends with whitespace (the regex consumes maximal
whitespace runs, so interior empties never occur); the empty string splits to
one empty piece. -/
def splitWs (l : List Char) : List (List Char) :=
  match l with
  | [] => [[]]
  | c :: _ =>
    let toks := (splitRaw l).filter (fun t => !t.isEmpty)
    let lead : List (List Char) := if isWsChar c then [[]] else []
    let trail : List (List Char) :=
      match l.getLast? with
      | some d => if isWsChar d then [[]] else []
      | none => []
    lead ++ toks ++ trail

/-- Inner loop of the Levenshtein recurrence: `levGo f x m1 b` computes the
distance between `x :: xs` and `b`, where `f` computes distances from `xs`
and `m1 = xs.length + 1`. Split out so that the recursion is structural (and
hence kernel-computable). -/
def levGo (f : List Char → Nat) (x : Char) (m1 : Nat) : List Char → Nat
  | [] => m1
  | y :: ys =>
    if x = y then f ys
    else 1 + min (f (y :: ys)) (min (levGo f x m1 ys) (f ys))

/-- Levenshtein edit distance (unit-cost insertion/deletion/substitution),
the function computed by the source's dynamic-programming table `dp` in
`levenshtein`: `dp[i][0] = i`, `dp[0][j] = j`, and
`dp[i][j] = if a[i-1] == b[j-1] then dp[i-1][j-1] else 1 + min of the three
neighbours`. -/
def levenshtein : List Char → List Char → Nat
  | [], b => b.length
  | x :: xs, b => levGo (levenshtein xs) x (xs.length + 1) b

/-- `normalizedSimilarity`: `1` when both strings are empty, otherwise
`1 - levenshtein(a,b) / max(len a, len b)`. -/
def normalizedSimilarity (a b : List Char) : ℚ :=
  if a.length = 0 ∧ b.length = 0 then 1
  else 1 - (levenshtein a b : ℚ) / (max a.length b.length : ℕ)

/-- `Math.round` for JavaScript: round half toward positive infinity. -/
def jsRound (q : ℚ) : ℤ := ⌊q + 1 / 2⌋

/-- `Math.round(score * 1000) / 1000` — round to three decimals. -/
def round3 (q : ℚ) : ℚ := (jsRound (q * 1000) : ℚ) / 1000

/-- The author-detection loop of `scoreMatch`: some author, split on
whitespace, has a part of length ≥ 3 that passes the similarity pre-filter
(`normalizedSimilarity > 0.3`) and then either occurs in the cluster text as
a substring or has `normalizedSimilarity > 0.8` with it. The source
accumulates `authorScore = Math.max(authorScore, 1.0)` over exactly these
parts, so the final `authorScore` is 1 iff such a part exists. -/
def authorDetected (normCluster : List Char) (bookAuthors : List (List Char)) : Bool :=
  bookAuthors.any fun author =>
    (splitWs (author.map Char.toLower)).any fun part =>
      decide (3 ≤ part.length) &&
        decide ((3 : ℚ) / 10 < normalizedSimilarity normCluster part) &&
        (includesSub normCluster part ||
          decide ((8 : ℚ) / 10 < normalizedSimilarity normCluster part))

/-- `scoreMatch(clusterText, bookTitle, bookAuthors)`: weighted title/author
score with a short-text penalty, rounded to three decimals. -/
def scoreMatch (clusterText bookTitle : List Char) (bookAuthors : List (List Char)) : ℚ :=
  let normCluster := normalizeText clusterText
  let normTitle := normalizeText bookTitle
  let titleScore := normalizedSimilarity normCluster normTitle
  let authorScore : ℚ := if authorDetected normCluster bookAuthors then 1 else 0
  let score := titleScore * (7 / 10) + authorScore * (3 / 10)
  let score :=
    if normCluster.length < 4 then score * (1 / 2)
    else if normCluster.length < 8 then score * (4 / 5)
    else score
  round3 score

/-! ## Spine clusterer (`clusterFragments`) -/

/-- Axis-aligned bounding box of an OCR fragment, pixel coordinates. -/
structure Bounds where
  x : ℚ
  y : ℚ
  width : ℚ
  height : ℚ
deriving DecidableEq, Repr

/-- One positioned OCR text fragment. -/
structure OcrFragment where
  text : List Char
  bounds : Bounds
deriving DecidableEq, Repr

/-- Horizontal center `bounds.x + bounds.width / 2` of a fragment. -/
def center (f : OcrFragment) : ℚ := f.bounds.x + f.bounds.width / 2

/-- The comparator `(a, b) => centerA - centerB` of the source's sort, as the
preorder it induces. `Array.prototype.sort` is stable, as is
`List.insertionSort`, so the model matches the source on ties. -/
def leCenter (a b : OcrFragment) : Prop := center a ≤ center b

instance : DecidableRel leCenter := fun a b => inferInstanceAs (Decidable (_ ≤ _))

instance : IsTotal OcrFragment leCenter := ⟨fun a b => le_total (center a) (center b)⟩

instance : IsTrans OcrFragment leCenter := ⟨fun _ _ _ h h' => le_trans h h'⟩

/-- The comparator `(a, b) => a.bounds.y - b.bounds.y` used for the
top-to-bottom sort inside each cluster. -/
def leY (a b : OcrFragment) : Prop := a.bounds.y ≤ b.bounds.y

instance : DecidableRel leY := fun a b => inferInstanceAs (Decidable (_ ≤ _))

instance : IsTotal OcrFragment leY := ⟨fun a b => le_total a.bounds.y b.bounds.y⟩

instance : IsTrans OcrFragment leY := ⟨fun _ _ _ h h' => le_trans h h'⟩

/-- The greedy left-to-right sweep of `clusterFragments`: `last` is the last
fragment added to the current open cluster, `curRev` the current open cluster
in reverse order. A fragment joins the open cluster iff its horizontal center
is within `prox` of the center of `last`; otherwise the open cluster is
closed and a new one is opened. -/
def sweep (prox : ℚ) : OcrFragment → List OcrFragment → List OcrFragment →
    List (List OcrFragment)
  | _, curRev, [] => [curRev.reverse]
  | last, curRev, f :: rest =>
    if |center f - center last| ≤ prox then sweep prox f (f :: curRev) rest
    else curRev.reverse :: sweep prox f [f] rest

/-- The clusters of fragments built by `clusterFragments` before the
per-cluster vertical sort and text extraction: sort by horizontal center,
then sweep. -/
def rawClusters (prox : ℚ) (fragments : List OcrFragment) : List (List OcrFragment) :=
  match List.insertionSort leCenter fragments with
  | [] => []
  | f :: rest => sweep prox f [f] rest

/-- `texts.join(" ")`. -/
def joinSpace (ts : List (List Char)) : List Char := List.intercalate [' '] ts

/-- `clusterFragments(fragments, proximityPx)`: cluster by horizontal
proximity, sort each cluster top-to-bottom by `y`, extract the text strings,
and drop clusters whose space-joined trimmed text is shorter than 3
characters. -/
def clusterFragments (fragments : List OcrFragment) (prox : ℚ) : List (List (List Char)) :=
  ((rawClusters prox fragments).map fun c =>
      (List.insertionSort leY c).map (·.text)).filter
    fun texts => decide (3 ≤ (trimWs (joinSpace texts)).length)

/-! ## External search adapter (`searchGoogleBooksForCluster`) -/

/-- A raw Google Books volume as consumed by the adapter. Only the fields the
pipeline reads are modelled (`item.id`, `volumeInfo.title`,
`volumeInfo.authors`); the remaining metadata fields are copied verbatim into
the result and never read by the matching logic. `none` models an
absent/undefined field. -/
structure RawItem where
  id : String
  title : Option (List Char)
  authors : Option (List (List Char))
deriving DecidableEq, Repr

/-- A normalized candidate record produced by the adapter. -/
structure Candidate where
  googleBooksId : String
  title : List Char
  authors : List (List Char)
deriving DecidableEq, Repr

/-- JavaScript `s || d` for a possibly-absent string: absent and empty
strings are falsy and replaced by the default. -/
def jsOrStr (o : Option (List Char)) (d : List Char) : List Char :=
  match o with
  | none => d
  | some s => if s.isEmpty then d else s

/-- Field normalization of `searchGoogleBooksForCluster`:
`title: info.title || "Untitled"` and
`authors: info.authors || ["Unknown Author"]` (an array, even the empty one,
is truthy in JavaScript, so only an absent `authors` field is defaulted). -/
def toCandidate (item : RawItem) : Candidate where
  googleBooksId := item.id
  title := jsOrStr item.title ("Untitled".toList)
  authors := item.authors.getD [("Unknown Author".toList)]

/-- `searchGoogleBooksForCluster`: issue the query (capped to 100 characters
by `query.slice(0, 100)`) to the injected fetch behavior; a failed fetch, a
non-2xx response or a malformed payload (the `Except.error` case) is caught
and yields the empty candidate list; a successful response yields its items,
field-normalized. -/
def searchGoogleBooksForCluster (fetchItems : List Char → Except Unit (List RawItem))
    (query : List Char) : List Candidate :=
  match fetchItems (query.take 100) with
  | .error _ => []
  | .ok items => items.map toCandidate

/-! ## Aggregator (`matchBooksFromOCR`) -/

/-- A matched book: the candidate enriched with its confidence score and the
originating cluster's texts. -/
structure MatchedBook where
  googleBooksId : String
  title : List Char
  authors : List (List Char)
  confidenceScore : ℚ
  matchedFragments : List (List Char)
deriving DecidableEq, Repr

/-- One element of `matchBooksFromOCR`'s result:
`{ book, ocrFragments }`. -/
structure MatchOut where
  book : MatchedBook
  ocrFragments : List (List Char)
deriving DecidableEq, Repr

/-- One iteration of the best-candidate loop of the per-cluster resolver:
a candidate replaces the running best `(bestMatch, bestScore)` iff its score
strictly exceeds `bestScore` and is at least `confidenceThreshold`. -/
def pickStep (confidenceThreshold : ℚ) (queryText : List Char)
    (clusterTexts : List (List Char)) (acc : Option MatchedBook × ℚ)
    (r : Candidate) : Option MatchedBook × ℚ :=
  let score := scoreMatch queryText r.title r.authors
  if acc.2 < score ∧ confidenceThreshold ≤ score then
    (some ⟨r.googleBooksId, r.title, r.authors, score, clusterTexts⟩, score)
  else acc

/-- The best-candidate loop of the per-cluster resolver: fold `pickStep` over
the candidates, starting from `(null, 0)`. -/
def pickBest (confidenceThreshold : ℚ) (queryText : List Char)
    (clusterTexts : List (List Char)) (results : List Candidate) :
    Option MatchedBook × ℚ :=
  results.foldl (pickStep confidenceThreshold queryText clusterTexts) (none, 0)

/-- The per-cluster body of `matchBooksFromOCR`'s batch callback: rebuild the
query from the cluster texts, give up on queries shorter than 3 characters or
empty result lists, pick the best candidate above the threshold, and emit it
unless its `googleBooksId` was already seen (recording it when emitted). -/
def processCluster (search : List Char → List Candidate) (confidenceThreshold : ℚ)
    (seen : List String) (clusterTexts : List (List Char)) :
    Option MatchOut × List String :=
  let queryText := trimWs (joinSpace clusterTexts)
  if queryText.length < 3 then (none, seen)
  else
    let results := search queryText
    if results.isEmpty then (none, seen)
    else
      match (pickBest confidenceThreshold queryText clusterTexts results).1 with
      | some best =>
        if seen.contains best.googleBooksId then (none, seen)
        else (some ⟨best, clusterTexts⟩, best.googleBooksId :: seen)
      | none => (none, seen)

/-- `clusters.slice(i, i + 5)` batching: split a list into consecutive chunks
of five. -/
def chunks5 {α : Type} : List α → List (List α)
  | [] => []
  | [a] => [[a]]
  | [a, b] => [[a, b]]
  | [a, b, c] => [[a, b, c]]
  | [a, b, c, d] => [[a, b, c, d]]
  | a :: b :: c :: d :: e :: rest => [a, b, c, d, e] :: chunks5 rest

/-- Descending-confidence order used for the final
`sort((a, b) => b.book.confidenceScore - a.book.confidenceScore)`. -/
def confGe (a b : MatchOut) : Prop :=
  b.book.confidenceScore ≤ a.book.confidenceScore

instance : DecidableRel confGe := fun a b => inferInstanceAs (Decidable (_ ≤ _))

instance : IsTotal MatchOut confGe :=
  ⟨fun a b => le_total b.book.confidenceScore a.book.confidenceScore⟩

instance : IsTrans MatchOut confGe := ⟨fun _ _ _ h h' => le_trans h' h⟩

/-- Collecting one cluster's resolution into the running
`(allMatches, seenIds)` state: a resolved match is appended, the seen set is
threaded. `resolve` is the per-cluster body (`processCluster search thr`). -/
def clusterStep
    (resolve : List String → List (List Char) → Option MatchOut × List String)
    (p : List MatchOut × List String) (texts : List (List Char)) :
    List MatchOut × List String :=
  let r := resolve p.2 texts
  (p.1 ++ r.1.toList, r.2)

/-- One batch of five clusters: resolve each callback, then append the
non-null results to `allMatches` in batch order. -/
def batchStep
    (resolve : List String → List (List Char) → Option MatchOut × List String)
    (acc : List MatchOut × List String) (batch : List (List (List Char))) :
    List MatchOut × List String :=
  let inner := batch.foldl (clusterStep resolve) ([], acc.2)
  (acc.1 ++ inner.1, inner.2)

/-- `matchBooksFromOCR(fragments, confidenceThreshold)`: cluster the
fragments, resolve the clusters in batches of five against the injected
search (threading the cross-batch `seenIds` set), and sort the surviving
matches by confidence descending. The JavaScript event loop resumes the five
callbacks of a batch in fetch-completion order; the model uses batch order,
the deterministic case (the single-threaded check-then-add on `seenIds` makes
the claims below order-insensitive). -/
def matchBooksFromOCR (search : List Char → List Candidate)
    (fragments : List OcrFragment) (confidenceThreshold : ℚ) : List MatchOut :=
  let clusters := clusterFragments fragments 80
  if clusters.isEmpty then []
  else
    List.insertionSort confGe
      ((chunks5 clusters).foldl
        (batchStep (processCluster search confidenceThreshold)) ([], [])).1

/-! ## Levenshtein distance lemmas -/

theorem levenshtein_nil_left (b : List Char) : levenshtein [] b = b.length := rfl

theorem levenshtein_nil_right (a : List Char) : levenshtein a [] = a.length := by
  cases a <;> rfl

theorem levenshtein_cons_cons (x y : Char) (xs ys : List Char) :
    levenshtein (x :: xs) (y :: ys) =
      if x = y then levenshtein xs ys
      else 1 + min (levenshtein xs (y :: ys))
        (min (levenshtein (x :: xs) ys) (levenshtein xs ys)) := rfl

theorem levenshtein_self (a : List Char) : levenshtein a a = 0 := by
  induction a with
  | nil => rfl
  | cons x xs ih => rw [levenshtein_cons_cons, if_pos rfl, ih]

theorem levenshtein_comm (a b : List Char) : levenshtein a b = levenshtein b a := by
  induction a generalizing b with
  | nil => rw [levenshtein_nil_left, levenshtein_nil_right]
  | cons x xs iha =>
    induction b with
    | nil => rw [levenshtein_nil_left, levenshtein_nil_right]
    | cons y ys ihb =>
      rw [levenshtein_cons_cons, levenshtein_cons_cons]
      rcases eq_or_ne x y with h | h
      · rw [if_pos h, if_pos h.symm, iha ys]
      · rw [if_neg h, if_neg (Ne.symm h), iha (y :: ys), ihb, iha ys,
          min_left_comm]

/-- Removing or adding a head character changes the distance by at most one
(proved by strong induction on the total length). -/
theorem levenshtein_head_bounds :
    ∀ (n : ℕ) (a b : List Char) (x : Char), a.length + b.length ≤ n →
      levenshtein (x :: a) b ≤ levenshtein a b + 1 ∧
        levenshtein a b ≤ levenshtein (x :: a) b + 1 := by
  intro n
  induction n with
  | zero =>
    intro a b x h
    have ha : a = [] := List.length_eq_zero.mp (by omega)
    have hb : b = [] := List.length_eq_zero.mp (by omega)
    subst ha; subst hb
    refine ⟨?_, ?_⟩ <;> simp [levenshtein_nil_right, levenshtein_nil_left]
  | succ n ih =>
    intro a b x h
    cases b with
    | nil =>
      rw [levenshtein_nil_right, levenshtein_nil_right]
      simp only [List.length_cons]
      omega
    | cons y ys =>
      constructor
      · rw [levenshtein_cons_cons]
        rcases eq_or_ne x y with hxy | hxy
        · rw [if_pos hxy]
          have h1 : levenshtein ys a ≤ levenshtein (y :: ys) a + 1 :=
            (ih ys a y (by simp at h ⊢; omega)).2
          calc levenshtein a ys = levenshtein ys a := levenshtein_comm _ _
            _ ≤ levenshtein (y :: ys) a + 1 := h1
            _ = levenshtein a (y :: ys) + 1 := by rw [levenshtein_comm]
        · rw [if_neg hxy]
          have := min_le_left (levenshtein a (y :: ys))
            (min (levenshtein (x :: a) ys) (levenshtein a ys))
          omega
      · rw [levenshtein_cons_cons]
        rcases eq_or_ne x y with hxy | hxy
        · rw [if_pos hxy]
          have h1 : levenshtein (y :: ys) a ≤ levenshtein ys a + 1 :=
            (ih ys a y (by simp at h ⊢; omega)).1
          calc levenshtein a (y :: ys) = levenshtein (y :: ys) a := levenshtein_comm _ _
            _ ≤ levenshtein ys a + 1 := h1
            _ = levenshtein a ys + 1 := by rw [levenshtein_comm]
        · rw [if_neg hxy]
          have huw : levenshtein a (y :: ys) ≤ levenshtein a ys + 1 := by
            rw [levenshtein_comm a (y :: ys), levenshtein_comm a ys]
            exact (ih ys a y (by simp only [List.length_cons] at h; omega)).1
          have hwv : levenshtein a ys ≤ levenshtein (x :: a) ys + 1 :=
            (ih a ys x (by simp only [List.length_cons] at h; omega)).2
          rcases min_choice (levenshtein a (y :: ys))
              (min (levenshtein (x :: a) ys) (levenshtein a ys)) with h1 | h1 <;>
            rcases min_choice (levenshtein (x :: a) ys) (levenshtein a ys) with
              h2 | h2 <;> omega

theorem levenshtein_cons_le (x : Char) (a b : List Char) :
    levenshtein (x :: a) b ≤ levenshtein a b + 1 :=
  (levenshtein_head_bounds (a.length + b.length) a b x le_rfl).1

theorem levenshtein_le_cons (x : Char) (a b : List Char) :
    levenshtein a b ≤ levenshtein (x :: a) b + 1 :=
  (levenshtein_head_bounds (a.length + b.length) a b x le_rfl).2

/-- The distance is at least the difference of the lengths. -/
theorem length_sub_le_levenshtein (a b : List Char) :
    a.length - b.length ≤ levenshtein a b := by
  induction b with
  | nil => rw [levenshtein_nil_right]; omega
  | cons y ys ih =>
    have h1 : levenshtein a ys ≤ levenshtein a (y :: ys) + 1 := by
      rw [levenshtein_comm a ys, levenshtein_comm a (y :: ys)]
      exact levenshtein_le_cons y ys a
    simp only [List.length_cons]
    omega

theorem levenshtein_le_max (a b : List Char) :
    levenshtein a b ≤ max a.length b.length := by
  induction a generalizing b with
  | nil => simp [levenshtein_nil_left]
  | cons x xs ih =>
    cases b with
    | nil => simp [levenshtein_nil_right]
    | cons y ys =>
      rw [levenshtein_cons_cons]
      rcases eq_or_ne x y with hxy | hxy
      · rw [if_pos hxy]
        have := ih ys
        simp only [List.length_cons]
        omega
      · rw [if_neg hxy]
        have h1 := ih ys
        have h2 := min_le_right (levenshtein xs (y :: ys))
          (min (levenshtein (x :: xs) ys) (levenshtein xs ys))
        have h3 := min_le_right (levenshtein (x :: xs) ys) (levenshtein xs ys)
        simp only [List.length_cons]
        omega

theorem levenshtein_le_of_sublist {a b : List Char} (h : b.Sublist a) :
    levenshtein a b ≤ a.length - b.length := by
  induction h with
  | slnil => simp [levenshtein_nil_left]
  | cons x h ih =>
    rename_i l1 l2
    have h1 := levenshtein_cons_le x l2 l1
    have h2 := h.length_le
    simp only [List.length_cons]
    omega
  | cons₂ x h ih =>
    rw [levenshtein_cons_cons, if_pos rfl]
    simpa using ih

/-- For a subsequence the distance is exactly the length difference: the
optimal edit script deletes the extra characters. -/
theorem levenshtein_eq_of_sublist {a b : List Char} (h : b.Sublist a) :
    levenshtein a b = a.length - b.length :=
  le_antisymm (levenshtein_le_of_sublist h) (length_sub_le_levenshtein a b)

/-! ## normalizedSimilarity lemmas -/

theorem normalizedSimilarity_comm (a b : List Char) :
    normalizedSimilarity a b = normalizedSimilarity b a := by
  rw [normalizedSimilarity, normalizedSimilarity, levenshtein_comm, Nat.max_comm]
  simp only [and_comm]

theorem normalizedSimilarity_nonneg (a b : List Char) :
    0 ≤ normalizedSimilarity a b := by
  rw [normalizedSimilarity]
  split
  · norm_num
  · rename_i h
    have hmax : 1 ≤ max a.length b.length := by
      rcases Nat.eq_zero_or_pos a.length with ha | ha
      · rcases Nat.eq_zero_or_pos b.length with hb | hb
        · exact absurd ⟨ha, hb⟩ h
        · omega
      · omega
    have hlev := levenshtein_le_max a b
    have hpos : (0 : ℚ) < (max a.length b.length : ℕ) := by exact_mod_cast hmax
    have : (levenshtein a b : ℚ) / (max a.length b.length : ℕ) ≤ 1 := by
      rw [div_le_one hpos]
      exact_mod_cast hlev
    linarith

theorem normalizedSimilarity_le_one (a b : List Char) :
    normalizedSimilarity a b ≤ 1 := by
  rw [normalizedSimilarity]
  split
  · norm_num
  · rename_i h
    have hmax : 1 ≤ max a.length b.length := by
      rcases Nat.eq_zero_or_pos a.length with ha | ha
      · rcases Nat.eq_zero_or_pos b.length with hb | hb
        · exact absurd ⟨ha, hb⟩ h
        · omega
      · omega
    have hpos : (0 : ℚ) < (max a.length b.length : ℕ) := by exact_mod_cast hmax
    have hnn : (0 : ℚ) ≤ (levenshtein a b : ℚ) / (max a.length b.length : ℕ) :=
      div_nonneg (by positivity) hpos.le
    linarith

theorem normalizedSimilarity_self (a : List Char) :
    normalizedSimilarity a a = 1 := by
  rw [normalizedSimilarity]
  split
  · rfl
  · rename_i h
    have ha : a.length ≠ 0 := fun hz => h ⟨hz, hz⟩
    rw [levenshtein_self]
    have : ((0 : ℕ) : ℚ) / (max a.length a.length : ℕ) = 0 := by simp
    rw [this]
    ring

/-- Similarity against a subsequence, in closed form. -/
theorem normalizedSimilarity_of_sublist {a b : List Char} (h : b.Sublist a)
    (ha : a ≠ []) :
    normalizedSimilarity a b = 1 - ((a.length - b.length : ℕ) : ℚ) / (a.length : ℚ) := by
  have hlen := h.length_le
  have ha' : a.length ≠ 0 := by simpa [List.length_eq_zero] using ha
  rw [normalizedSimilarity, if_neg (by tauto), levenshtein_eq_of_sublist h,
    Nat.max_eq_left hlen]

/-! ## Rounding lemmas -/

theorem round3_eq (q : ℚ) (z : ℤ) (h1 : (z : ℚ) ≤ q * 1000 + 1 / 2)
    (h2 : q * 1000 + 1 / 2 < z + 1) : round3 q = (z : ℚ) / 1000 := by
  rw [round3, jsRound, Int.floor_eq_iff.mpr ⟨h1, h2⟩]

theorem round3_nonneg {q : ℚ} (h : 0 ≤ q) : 0 ≤ round3 q := by
  rw [round3, jsRound]
  have h0 : (0 : ℤ) ≤ ⌊q * 1000 + 1 / 2⌋ := Int.le_floor.mpr (by push_cast; linarith)
  have : (0 : ℚ) ≤ (⌊q * 1000 + 1 / 2⌋ : ℤ) := by exact_mod_cast h0
  positivity

theorem round3_le_one {q : ℚ} (h : q ≤ 1) : round3 q ≤ 1 := by
  rw [round3, jsRound]
  have h1 : ⌊q * 1000 + 1 / 2⌋ ≤ 1000 := by
    by_contra hc
    push_neg at hc
    have : ((1001 : ℤ) : ℚ) ≤ q * 1000 + 1 / 2 := Int.le_floor.mp (by omega)
    push_cast at this
    linarith
  have : ((⌊q * 1000 + 1 / 2⌋ : ℤ) : ℚ) ≤ 1000 := by exact_mod_cast h1
  linarith

/-! ## scoreMatch contract -/

/-- The scoring contract as the specification words it: the rounded product
of the short-text penalty with the `0.7/0.3`-weighted sum of the normalized
title similarity and the binary author signal. This definition follows the
specification text; `scoreMatch` above follows the source. -/
def scoreMatchSpec (clusterText bookTitle : List Char)
    (bookAuthors : List (List Char)) : ℚ :=
  let normCluster := normalizeText clusterText
  let titleScore := normalizedSimilarity normCluster (normalizeText bookTitle)
  let authorScore : ℚ :=
    if ∃ author ∈ bookAuthors, ∃ part ∈ splitWs (author.map Char.toLower),
        3 ≤ part.length ∧ (3 : ℚ) / 10 < normalizedSimilarity normCluster part ∧
          (includesSub normCluster part = true ∨
            (8 : ℚ) / 10 < normalizedSimilarity normCluster part)
      then 1 else 0
  let penalty : ℚ :=
    if normCluster.length < 4 then 1 / 2
    else if normCluster.length < 8 then 4 / 5
    else 1
  round3 (penalty * (titleScore * (7 / 10) + authorScore * (3 / 10)))

theorem authorDetected_iff (nc : List Char) (as : List (List Char)) :
    authorDetected nc as = true ↔
      ∃ author ∈ as, ∃ part ∈ splitWs (author.map Char.toLower),
        3 ≤ part.length ∧ (3 : ℚ) / 10 < normalizedSimilarity nc part ∧
          (includesSub nc part = true ∨
            (8 : ℚ) / 10 < normalizedSimilarity nc part) := by
  simp [authorDetected, List.any_eq_true, Bool.and_eq_true, Bool.or_eq_true,
    decide_eq_true_eq, and_assoc]

theorem scoreMatch_eq_spec (c t : List Char) (as : List (List Char)) :
    scoreMatch c t as = scoreMatchSpec c t as := by
  have hA : (if authorDetected (normalizeText c) as then (1 : ℚ) else 0) =
      (if ∃ author ∈ as, ∃ part ∈ splitWs (author.map Char.toLower),
          3 ≤ part.length ∧
            (3 : ℚ) / 10 < normalizedSimilarity (normalizeText c) part ∧
            (includesSub (normalizeText c) part = true ∨
              (8 : ℚ) / 10 < normalizedSimilarity (normalizeText c) part)
        then (1 : ℚ) else 0) := by
    by_cases h : authorDetected (normalizeText c) as = true
    · rw [if_pos h, if_pos ((authorDetected_iff _ _).mp h)]
    · rw [if_neg (by simpa using h),
        if_neg (fun hp => h ((authorDetected_iff _ _).mpr hp))]
  simp only [scoreMatch, scoreMatchSpec]
  rw [hA]
  split_ifs <;> (congr 1; ring)

theorem penaltyRound_bounds (n : ℕ) (s : ℚ) (h0 : 0 ≤ s) (h1 : s ≤ 1) :
    0 ≤ round3 (if n < 4 then s * (1 / 2) else if n < 8 then s * (4 / 5) else s) ∧
      round3 (if n < 4 then s * (1 / 2) else if n < 8 then s * (4 / 5) else s) ≤ 1 := by
  split_ifs <;>
    exact ⟨round3_nonneg (by linarith), round3_le_one (by linarith)⟩

theorem scoreMatch_bounds (c t : List Char) (as : List (List Char)) :
    0 ≤ scoreMatch c t as ∧ scoreMatch c t as ≤ 1 := by
  have h0 := normalizedSimilarity_nonneg (normalizeText c) (normalizeText t)
  have h1 := normalizedSimilarity_le_one (normalizeText c) (normalizeText t)
  have ha0 : (0 : ℚ) ≤ (if authorDetected (normalizeText c) as then (1 : ℚ) else 0) := by
    split <;> norm_num
  have ha1 : (if authorDetected (normalizeText c) as then (1 : ℚ) else 0) ≤ 1 := by
    split <;> norm_num
  simp only [scoreMatch]
  exact penaltyRound_bounds _ _ (by nlinarith) (by nlinarith)

/-- An exact title match with no author signal and an unpenalized cluster
scores exactly `0.700`. -/
theorem scoreMatch_exact (c t : List Char) (as : List (List Char))
    (h : normalizeText c = normalizeText t)
    (h8 : 8 ≤ (normalizeText c).length)
    (ha : authorDetected (normalizeText c) as = false) :
    scoreMatch c t as = 7 / 10 := by
  have h1 : normalizedSimilarity (normalizeText c) (normalizeText t) = 1 := by
    rw [← h]; exact normalizedSimilarity_self _
  have h4 : ¬(normalizeText c).length < 4 := by omega
  have h8' : ¬(normalizeText c).length < 8 := by omega
  simp only [scoreMatch, h1, ha, if_false, if_neg h4, if_neg h8',
    Bool.false_eq_true]
  have : round3 ((1 : ℚ) * (7 / 10) + 0 * (3 / 10)) = ((700 : ℤ) : ℚ) / 1000 :=
    round3_eq _ 700 (by norm_num) (by norm_num)
  rw [this]
  norm_num

/-! ## Claim C8 -/

/-- C8: `normalizedSimilarity` is symmetric and lies in `[0, 1]`; it is `1`
on a pair of empty strings and on equal strings `"abc"`, `0` on
`"abc"`/`"xyz"`; and off the both-empty case it equals
`1 - levenshtein(a,b) / max(len a, len b)` for the classic unit-cost edit
distance. -/
theorem normalizedSimilarity_contract :
    (∀ a b : List Char,
      normalizedSimilarity a b = normalizedSimilarity b a ∧
        0 ≤ normalizedSimilarity a b ∧ normalizedSimilarity a b ≤ 1) ∧
    normalizedSimilarity [] [] = 1 ∧
    normalizedSimilarity ("abc".toList) ("abc".toList) = 1 ∧
    normalizedSimilarity ("abc".toList) ("xyz".toList) = 0 ∧
    (∀ a b : List Char, ¬(a = [] ∧ b = []) →
      normalizedSimilarity a b =
        1 - (levenshtein a b : ℚ) / ((max a.length b.length : ℕ) : ℚ)) := by
  refine ⟨fun a b => ⟨normalizedSimilarity_comm a b, normalizedSimilarity_nonneg a b,
    normalizedSimilarity_le_one a b⟩, by simp [normalizedSimilarity],
    normalizedSimilarity_self _, ?_, ?_⟩
  · rw [normalizedSimilarity, if_neg (by decide),
      show levenshtein ("abc".toList) ("xyz".toList) = 3 from by decide,
      show ("abc".toList).length = 3 from by decide,
      show ("xyz".toList).length = 3 from by decide]
    norm_num
  · intro a b h
    rw [normalizedSimilarity,
      if_neg (fun hz => h ⟨List.length_eq_zero.mp hz.1, List.length_eq_zero.mp hz.2⟩)]

/-- Witness for C8's conditional clause at a concrete input. -/
theorem normalizedSimilarity_contract_witness :
    ¬((['a'] : List Char) = [] ∧ ([] : List Char) = []) ∧
      normalizedSimilarity ['a'] [] =
        1 - (levenshtein ['a'] [] : ℚ) /
          ((max (['a'] : List Char).length (([] : List Char)).length : ℕ) : ℚ) :=
  ⟨by decide, normalizedSimilarity_contract.2.2.2.2 ['a'] [] (by decide)⟩

/-! ## Claim C2 -/

/-- C2: `scoreMatch` computes the round-to-3-decimals of
`penalty * (0.7 * titleScore + 0.3 * authorScore)` exactly as the
specification describes (`scoreMatchSpec`), its result is always in `[0,1]`,
and an exact title match with no author signal and normalized cluster length
≥ 8 scores exactly `0.700`. -/
theorem scoreMatch_contract :
    (∀ (c t : List Char) (as : List (List Char)),
      scoreMatch c t as = scoreMatchSpec c t as ∧
        0 ≤ scoreMatch c t as ∧ scoreMatch c t as ≤ 1) ∧
    (∀ (c t : List Char) (as : List (List Char)),
      normalizeText c = normalizeText t →
      8 ≤ (normalizeText c).length →
      authorDetected (normalizeText c) as = false →
      scoreMatch c t as = 7 / 10) :=
  ⟨fun c t as => ⟨scoreMatch_eq_spec c t as, scoreMatch_bounds c t as⟩,
    fun c t as h h8 ha => scoreMatch_exact c t as h h8 ha⟩

/-- Witness for C2's exact-match clause at a concrete input. -/
theorem scoreMatch_contract_witness :
    normalizeText ("the great gatsby".toList) =
        normalizeText ("The Great Gatsby".toList) ∧
      8 ≤ (normalizeText ("the great gatsby".toList)).length ∧
      authorDetected (normalizeText ("the great gatsby".toList)) [] = false ∧
      scoreMatch ("the great gatsby".toList) ("The Great Gatsby".toList) [] = 7 / 10 :=
  ⟨by decide, by decide, by decide,
    scoreMatch_contract.2 ("the great gatsby".toList) ("The Great Gatsby".toList) []
      (by decide) (by decide) (by decide)⟩

/-! ## Sweep structure lemmas (claim C3) -/

/-- Fragments within `prox` of the previous one, the chained condition of the
sweep. -/
def nearPrev (prox : ℚ) (a b : OcrFragment) : Prop := |center b - center a| ≤ prox

theorem sweep_flatten (prox : ℚ) :
    ∀ (rest : List OcrFragment) (last : OcrFragment) (curRev : List OcrFragment),
      (sweep prox last curRev rest).flatten = curRev.reverse ++ rest := by
  intro rest
  induction rest with
  | nil => intro last curRev; simp [sweep]
  | cons f rest ih =>
    intro last curRev
    rw [sweep]
    split
    · rw [ih]; simp
    · simp only [List.flatten_cons, ih]; simp

theorem sweep_chain (prox : ℚ) :
    ∀ (rest : List OcrFragment) (last : OcrFragment) (curRev : List OcrFragment),
      curRev.head? = some last → curRev.reverse.Chain' (nearPrev prox) →
      ∀ c ∈ sweep prox last curRev rest, c.Chain' (nearPrev prox) := by
  intro rest
  induction rest with
  | nil =>
    intro last curRev _ hchain c hc
    simp only [sweep, List.mem_singleton] at hc
    exact hc ▸ hchain
  | cons f rest ih =>
    intro last curRev hhead hchain c hc
    rw [sweep] at hc
    split at hc
    · rename_i hnear
      refine ih f (f :: curRev) rfl ?_ c hc
      rw [List.reverse_cons, List.chain'_append]
      refine ⟨hchain, List.chain'_singleton f, fun x hx y hy => ?_⟩
      rw [List.getLast?_reverse, hhead, Option.mem_some_iff] at hx
      rw [List.head?_cons, Option.mem_some_iff] at hy
      rw [← hx, ← hy] at *
      exact hnear
    · rcases List.mem_cons.mp hc with h | h
      · exact h ▸ hchain
      · exact ih f [f] rfl (by simp) c h

theorem sweep_first_head (prox : ℚ) :
    ∀ (rest : List OcrFragment) (last : OcrFragment) (curRev : List OcrFragment),
      curRev ≠ [] →
      ∃ c cs, sweep prox last curRev rest = c :: cs ∧ c.head? = curRev.getLast? := by
  intro rest
  induction rest with
  | nil =>
    intro last curRev _
    exact ⟨curRev.reverse, [], rfl, List.head?_reverse curRev⟩
  | cons f rest ih =>
    intro last curRev hne
    rw [sweep]
    split
    · obtain ⟨c, cs, heq, hc⟩ := ih f (f :: curRev) (by simp)
      refine ⟨c, cs, heq, hc.trans ?_⟩
      cases curRev with
      | nil => exact absurd rfl hne
      | cons a as => exact List.getLast?_cons_cons
    · exact ⟨curRev.reverse, _, rfl, List.head?_reverse curRev⟩

theorem sweep_boundary (prox : ℚ) :
    ∀ (rest : List OcrFragment) (last : OcrFragment) (curRev : List OcrFragment),
      curRev.head? = some last →
      (sweep prox last curRev rest).Chain' (fun c d =>
        ∀ a ∈ c.getLast?, ∀ b ∈ d.head?, ¬nearPrev prox a b) := by
  intro rest
  induction rest with
  | nil => intro last curRev _; exact List.chain'_singleton _
  | cons f rest ih =>
    intro last curRev hhead
    rw [sweep]
    split
    · exact ih f (f :: curRev) rfl
    · rename_i hfar
      rw [List.chain'_cons']
      refine ⟨fun y hy a ha b hb => ?_, ih f [f] rfl⟩
      obtain ⟨c, cs, heq, hc⟩ := sweep_first_head prox rest f [f] (by simp)
      rw [heq, List.head?_cons, Option.mem_some_iff] at hy
      rw [← hy] at hb
      rw [hc, List.getLast?_singleton, Option.mem_some_iff] at hb
      rw [List.getLast?_reverse, hhead, Option.mem_some_iff] at ha
      rw [← ha, ← hb]
      exact hfar

theorem rawClusters_flatten (prox : ℚ) (fragments : List OcrFragment) :
    (rawClusters prox fragments).flatten = List.insertionSort leCenter fragments := by
  rw [rawClusters]
  split
  · rename_i heq; rw [heq]; rfl
  · rename_i f rest heq; rw [heq, sweep_flatten]; rfl

theorem rawClusters_chain (prox : ℚ) (fragments : List OcrFragment) :
    ∀ c ∈ rawClusters prox fragments, c.Chain' (nearPrev prox) := by
  rw [rawClusters]
  split
  · simp
  · exact fun c hc => sweep_chain prox _ _ [_] rfl (by simp) c hc

theorem rawClusters_boundary (prox : ℚ) (fragments : List OcrFragment) :
    (rawClusters prox fragments).Chain' (fun c d =>
      ∀ a ∈ c.getLast?, ∀ b ∈ d.head?, ¬nearPrev prox a b) := by
  rw [rawClusters]
  split
  · exact List.chain'_nil
  · exact sweep_boundary prox _ _ [_] rfl

/-- Concrete fragments for the proximity boundary: horizontal centers `100`,
`180` (difference exactly `80`) and `181` (difference `81`). -/
def fragC3a : OcrFragment := ⟨"abc".toList, ⟨60, 0, 80, 10⟩⟩

def fragC3b : OcrFragment := ⟨"def".toList, ⟨140, 0, 80, 10⟩⟩

def fragC3c : OcrFragment := ⟨"def".toList, ⟨141, 0, 80, 10⟩⟩

/-! ## Claim C3 -/

/-- Centers `100` and `180` differ by exactly `80`: one cluster. -/
theorem clusterFragments_c3ab :
    clusterFragments [fragC3a, fragC3b] 80 = [["abc".toList, "def".toList]] := by
  norm_num [clusterFragments, rawClusters, List.insertionSort, List.orderedInsert,
    sweep, leCenter, leY, center, fragC3a, fragC3b, joinSpace, trimWs, isWsChar]
  all_goals decide

/-- Centers `100` and `181` differ by `81 > 80`: two clusters. -/
theorem clusterFragments_c3ac :
    clusterFragments [fragC3a, fragC3c] 80 = [["abc".toList], ["def".toList]] := by
  norm_num [clusterFragments, rawClusters, List.insertionSort, List.orderedInsert,
    sweep, leCenter, leY, center, fragC3a, fragC3c, joinSpace, trimWs, isWsChar]
  all_goals decide

/-- C3: the sweep of `clusterFragments` partitions the center-sorted fragment
sequence into contiguous clusters such that consecutive fragments inside a
cluster have centers within `proximityPx` of each other (a chained/rolling
threshold), while the boundary pair between two consecutive clusters exceeds
it; in particular with `proximityPx = 80`, centers `100` and `180` land in
one cluster and centers `100` and `181` in two. -/
theorem clusterFragments_chained :
    (∀ (prox : ℚ) (fragments : List OcrFragment),
      (rawClusters prox fragments).flatten = List.insertionSort leCenter fragments ∧
        (∀ c ∈ rawClusters prox fragments, c.Chain' (nearPrev prox)) ∧
        (rawClusters prox fragments).Chain' (fun c d =>
          ∀ a ∈ c.getLast?, ∀ b ∈ d.head?, ¬nearPrev prox a b)) ∧
    clusterFragments [fragC3a, fragC3b] 80 = [["abc".toList, "def".toList]] ∧
    clusterFragments [fragC3a, fragC3c] 80 = [["abc".toList], ["def".toList]] :=
  ⟨fun prox fragments => ⟨rawClusters_flatten prox fragments,
    rawClusters_chain prox fragments, rawClusters_boundary prox fragments⟩,
    clusterFragments_c3ab, clusterFragments_c3ac⟩

/-- Witness for C3's within-cluster clause at a concrete input. -/
theorem clusterFragments_chained_witness :
    ([fragC3a, fragC3b] : List OcrFragment).Chain' (nearPrev 80) := by
  have hraw : rawClusters 80 [fragC3a, fragC3b] = [[fragC3a, fragC3b]] := by
    norm_num [rawClusters, List.insertionSort, List.orderedInsert, sweep,
      leCenter, center, fragC3a, fragC3b]
  exact (clusterFragments_chained.1 80 [fragC3a, fragC3b]).2.1 [fragC3a, fragC3b]
    (by rw [hraw]; simp)

/-! ## Claim C4 -/

/-- Two sorted permutations of each other whose centers are pairwise distinct
are equal. (`leCenter` is not antisymmetric on fragments — two distinct
fragments may share a center — so distinctness of the sort keys is needed.) -/
theorem sorted_perm_eq_of_nodup_centers :
    ∀ {l₁ l₂ : List OcrFragment}, l₁.Perm l₂ → l₁.Sorted leCenter →
      l₂.Sorted leCenter → (l₁.map center).Nodup → l₁ = l₂ := by
  intro l₁
  induction l₁ with
  | nil => intro l₂ hp _ _ _; exact (hp.nil_eq).symm ▸ rfl
  | cons x xs ih =>
    intro l₂ hp hs₁ hs₂ hnd
    cases l₂ with
    | nil => exact absurd hp.symm.nil_eq (by simp)
    | cons y ys =>
      have hxy : x = y := by
        by_contra hne
        have hxmem : x ∈ y :: ys := hp.mem_iff.mp (List.mem_cons_self x xs)
        have hx : x ∈ ys := by
          rcases List.mem_cons.mp hxmem with h | h
          · exact absurd h hne
          · exact h
        have hymem : y ∈ x :: xs := hp.mem_iff.mpr (List.mem_cons_self y ys)
        have hy : y ∈ xs := by
          rcases List.mem_cons.mp hymem with h | h
          · exact absurd h.symm hne
          · exact h
        have h1 : center x ≤ center y := (List.sorted_cons.mp hs₁).1 y hy
        have h2 : center y ≤ center x := (List.sorted_cons.mp hs₂).1 x hx
        have hcc : center x = center y := le_antisymm h1 h2
        have : center x ∉ xs.map center := (List.nodup_cons.mp hnd).1
        exact this (hcc ▸ List.mem_map_of_mem center hy)
      subst hxy
      have htail : xs.Perm ys := hp.cons_inv
      rw [ih htail (List.sorted_cons.mp hs₁).2 (List.sorted_cons.mp hs₂).2
        (List.nodup_cons.mp hnd).2]

/-- C4 (amended): `clusterFragments` is invariant under permutation of its
input, provided the fragments' horizontal centers are pairwise distinct. -/
theorem clusterFragments_perm_invariant :
    ∀ (l₁ l₂ : List OcrFragment) (prox : ℚ), l₁.Perm l₂ →
      (l₁.map center).Nodup → clusterFragments l₁ prox = clusterFragments l₂ prox := by
  intro l₁ l₂ prox hp hnd
  have hsort : List.insertionSort leCenter l₁ = List.insertionSort leCenter l₂ := by
    refine sorted_perm_eq_of_nodup_centers
      ((List.perm_insertionSort leCenter l₁).trans
        (hp.trans (List.perm_insertionSort leCenter l₂).symm))
      (List.sorted_insertionSort leCenter l₁)
      (List.sorted_insertionSort leCenter l₂) ?_
    exact (((List.perm_insertionSort leCenter l₁).map center).nodup_iff).mpr hnd
  rw [clusterFragments, clusterFragments, rawClusters, rawClusters, hsort]

/-- Fragments with identical bounds (hence tied centers) but different
texts: the stable sorts keep them in input order, so permuting the input
permutes the cluster-internal text order. -/
def fragC4a : OcrFragment := ⟨"aaa".toList, ⟨0, 0, 0, 0⟩⟩

def fragC4b : OcrFragment := ⟨"bbb".toList, ⟨0, 0, 0, 0⟩⟩

/-- Counterexample to C4 as stated: two fragments with equal bounds, in the
two input orders, yield different group-internal text orderings. -/
theorem clusterFragments_perm_counterexample :
    ([fragC4a, fragC4b] : List OcrFragment).Perm [fragC4b, fragC4a] ∧
      clusterFragments [fragC4a, fragC4b] 80 ≠ clusterFragments [fragC4b, fragC4a] 80 := by
  constructor
  · exact List.Perm.swap fragC4b fragC4a []
  · norm_num [clusterFragments, rawClusters, List.insertionSort, List.orderedInsert,
      sweep, leCenter, leY, center, fragC4a, fragC4b, joinSpace, trimWs, isWsChar]
    all_goals decide

/-- Witness for C4's amended claim at a concrete permuted pair with distinct
centers. -/
theorem clusterFragments_perm_invariant_witness :
    clusterFragments [fragC3a, fragC3b] 80 = clusterFragments [fragC3b, fragC3a] 80 :=
  clusterFragments_perm_invariant [fragC3a, fragC3b] [fragC3b, fragC3a] 80
    (List.Perm.swap fragC3b fragC3a [])
    (by norm_num [center, fragC3a, fragC3b])

/-! ## Claim C5 -/

/-- Invariant of the best-candidate fold: the running best score stays
nonnegative, and any produced best match cleared the threshold with a
strictly positive score. -/
theorem pickBest_foldl_inv (thr : ℚ) (q : List Char) (texts : List (List Char)) :
    ∀ (rs : List Candidate) (acc : Option MatchedBook × ℚ), 0 ≤ acc.2 →
      (∀ b, acc.1 = some b → thr ≤ b.confidenceScore ∧ 0 < b.confidenceScore) →
      0 ≤ (rs.foldl (pickStep thr q texts) acc).2 ∧
        ∀ b, (rs.foldl (pickStep thr q texts) acc).1 = some b →
          thr ≤ b.confidenceScore ∧ 0 < b.confidenceScore := by
  intro rs
  induction rs with
  | nil => intro acc h0 h1; exact ⟨h0, h1⟩
  | cons r rs ih =>
    intro acc h0 h1
    rw [List.foldl_cons]
    refine ih _ ?_ ?_
    · simp only [pickStep]
      split
      · rename_i hcond; linarith [hcond.1]
      · exact h0
    · simp only [pickStep]
      split
      · rename_i hcond
        intro b hb
        rw [Option.some.injEq] at hb
        rw [← hb]
        exact ⟨hcond.2, lt_of_le_of_lt h0 hcond.1⟩
      · exact h1

/-- `0.456`-style helper: an exact 4-character title match scores
`0.7 * 0.8 = 0.56` after the short-text penalty. -/
theorem scoreMatch_wxyz_self :
    scoreMatch ("wxyz".toList) ("wxyz".toList) [] = 14 / 25 := by
  have hnc : normalizeText ("wxyz".toList) = "wxyz".toList := by decide
  simp only [scoreMatch, hnc, normalizedSimilarity_self,
    show authorDetected ("wxyz".toList) [] = false from rfl,
    show ("wxyz".toList).length = 4 from by decide]
  norm_num
  rw [round3_eq (14 / 25) 560 (by norm_num) (by norm_num)]
  norm_num

/-- A title with no character in common with the 4-character cluster scores
`0`. -/
theorem scoreMatch_abcd_wxyz :
    scoreMatch ("abcd".toList) ("wxyz".toList) [] = 0 := by
  have hnc : normalizeText ("abcd".toList) = "abcd".toList := by decide
  have hnt : normalizeText ("wxyz".toList) = "wxyz".toList := by decide
  have hts : normalizedSimilarity ("abcd".toList) ("wxyz".toList) = 0 := by
    rw [normalizedSimilarity, if_neg (by decide),
      show levenshtein ("abcd".toList) ("wxyz".toList) = 4 from by decide,
      show ("abcd".toList).length = 4 from by decide,
      show ("wxyz".toList).length = 4 from by decide]
    norm_num
  simp only [scoreMatch, hnc, hnt, hts,
    show authorDetected ("abcd".toList) [] = false from rfl,
    show ("abcd".toList).length = 4 from by decide]
  norm_num
  rw [round3_eq 0 0 (by norm_num) (by norm_num)]
  norm_num

/-- Counterexample to C5 as stated: with `confidenceThreshold = 0`, a sole
candidate scoring exactly the threshold is rejected (the initial best score
`0` must be strictly exceeded), so the resolver yields no match. -/
theorem pickBest_threshold_counterexample :
    scoreMatch ("abcd".toList) ("wxyz".toList) [] = (0 : ℚ) ∧
      (pickBest 0 ("abcd".toList) ["abcd".toList]
        [⟨"id1", "wxyz".toList, []⟩]).1 = none := by
  refine ⟨scoreMatch_abcd_wxyz, ?_⟩
  simp only [pickBest, List.foldl_cons, List.foldl_nil, pickStep,
    scoreMatch_abcd_wxyz]
  norm_num

/-- C5 (amended): a candidate becomes the running best only if its score
strictly exceeds the current best and clears the threshold; consequently,
for a strictly positive `confidenceThreshold`, a sole candidate scoring
exactly the threshold is accepted, while one scoring `threshold - 0.001` is
rejected and the resolver yields no match. -/
theorem pickBest_threshold_gate :
    (∀ (thr : ℚ) (q : List Char) (texts : List (List Char))
      (rs : List Candidate) (b : MatchedBook),
      (pickBest thr q texts rs).1 = some b →
        thr ≤ b.confidenceScore ∧ 0 < b.confidenceScore) ∧
    (∀ (thr : ℚ) (q : List Char) (texts : List (List Char)) (r : Candidate),
      0 < thr → scoreMatch q r.title r.authors = thr →
      (pickBest thr q texts [r]).1 =
        some ⟨r.googleBooksId, r.title, r.authors, thr, texts⟩) ∧
    (∀ (thr : ℚ) (q : List Char) (texts : List (List Char)) (r : Candidate),
      scoreMatch q r.title r.authors = thr - 1 / 1000 →
      (pickBest thr q texts [r]).1 = none) := by
  refine ⟨fun thr q texts rs b hb =>
    (pickBest_foldl_inv thr q texts rs (none, 0) le_rfl (by simp)).2 b hb, ?_, ?_⟩
  · intro thr q texts r hpos hscore
    simp only [pickBest, List.foldl_cons, List.foldl_nil, pickStep, hscore]
    rw [if_pos ⟨hpos, le_rfl⟩]
  · intro thr q texts r hscore
    simp only [pickBest, List.foldl_cons, List.foldl_nil, pickStep, hscore]
    rw [if_neg (fun hc => absurd hc.2 (by linarith))]

/-- Witness for C5's amended clauses at concrete inputs. -/
theorem pickBest_threshold_gate_witness :
    (pickBest (14 / 25) ("wxyz".toList) ["wxyz".toList]
        [⟨"id1", "wxyz".toList, []⟩]).1 =
      some ⟨"id1", "wxyz".toList, [], 14 / 25, ["wxyz".toList]⟩ ∧
    (pickBest (561 / 1000) ("wxyz".toList) ["wxyz".toList]
        [⟨"id1", "wxyz".toList, []⟩]).1 = none :=
  ⟨pickBest_threshold_gate.2.1 (14 / 25) ("wxyz".toList) ["wxyz".toList]
      ⟨"id1", "wxyz".toList, []⟩ (by norm_num) scoreMatch_wxyz_self,
    pickBest_threshold_gate.2.2 (561 / 1000) ("wxyz".toList) ["wxyz".toList]
      ⟨"id1", "wxyz".toList, []⟩ (by rw [scoreMatch_wxyz_self]; norm_num)⟩

/-! ## Aggregator fold lemmas -/

theorem chunks5_flatten {α : Type} : ∀ l : List α, (chunks5 l).flatten = l := by
  intro l
  induction l using chunks5.induct <;> simp_all [chunks5]

theorem clusterFold_shift
    (resolve : List String → List (List Char) → Option MatchOut × List String) :
    ∀ (cs : List (List (List Char))) (rs : List MatchOut) (seen : List String),
      cs.foldl (clusterStep resolve) (rs, seen) =
        (rs ++ (cs.foldl (clusterStep resolve) ([], seen)).1,
          (cs.foldl (clusterStep resolve) ([], seen)).2) := by
  intro cs
  induction cs with
  | nil => intro rs seen; simp
  | cons c cs ih =>
    intro rs seen
    rw [List.foldl_cons, List.foldl_cons]
    simp only [clusterStep, List.nil_append]
    rw [ih (rs ++ (resolve seen c).1.toList) (resolve seen c).2,
      ih ((resolve seen c).1.toList) (resolve seen c).2]
    simp [List.append_assoc]

theorem batchFold_eq_flat
    (resolve : List String → List (List Char) → Option MatchOut × List String) :
    ∀ (bs : List (List (List (List Char)))) (acc : List MatchOut × List String),
      bs.foldl (batchStep resolve) acc =
        bs.flatten.foldl (clusterStep resolve) acc := by
  intro bs
  induction bs with
  | nil => intro acc; rfl
  | cons b bs ih =>
    intro acc
    rw [List.foldl_cons, List.flatten_cons, List.foldl_append, ih]
    congr 1
    simp only [batchStep]
    rw [← clusterFold_shift resolve b acc.1 acc.2]

theorem foldl_congr_mem {α β : Type} (f g : β → α → β) :
    ∀ (l : List α) (i : β), (∀ x ∈ l, ∀ s, f s x = g s x) →
      l.foldl f i = l.foldl g i := by
  intro l
  induction l with
  | nil => intro i _; rfl
  | cons x xs ih =>
    intro i h
    rw [List.foldl_cons, List.foldl_cons, h x (List.mem_cons_self x xs) i]
    exact ih _ fun y hy s => h y (List.mem_cons_of_mem x hy) s

/-! ## Claim C6 -/

/-- Search errors are indistinguishable from an empty item list after the
adapter's catch. -/
theorem searchGoogleBooksForCluster_err_eq
    (fetchItems : List Char → Except Unit (List RawItem)) :
    searchGoogleBooksForCluster fetchItems =
      searchGoogleBooksForCluster (fun q =>
        match fetchItems q with
        | .error _ => .ok []
        | .ok items => .ok items) := by
  funext q
  rw [searchGoogleBooksForCluster, searchGoogleBooksForCluster]
  cases fetchItems (q.take 100) <;> rfl

theorem processCluster_search_empty (search : List Char → List Candidate)
    (hs : ∀ q, search q = []) (thr : ℚ) (seen : List String)
    (texts : List (List Char)) :
    processCluster search thr seen texts = (none, seen) := by
  rw [processCluster]
  simp [hs]

theorem matchBooksFromOCR_search_empty (search : List Char → List Candidate)
    (hs : ∀ q, search q = []) (fragments : List OcrFragment) (thr : ℚ) :
    matchBooksFromOCR search fragments thr = [] := by
  rw [matchBooksFromOCR]
  split
  · rfl
  · rw [batchFold_eq_flat]
    have hfold : ∀ (cs : List (List (List Char))) (p : List MatchOut × List String),
        cs.foldl (clusterStep (processCluster search thr)) p = p := by
      intro cs
      induction cs with
      | nil => intro p; rfl
      | cons c cs ih =>
        intro p
        rw [List.foldl_cons, clusterStep, processCluster_search_empty search hs]
        simpa using ih p
    rw [hfold]
    rfl

/-- C6: every fetch failure is caught inside the search adapter and treated
exactly as an empty candidate list — running the aggregator with a fallible
fetch behavior equals running it with that behavior's errors replaced by
empty successes (so a failing cluster contributes nothing and the others
proceed) — and with an always-failing search the aggregator returns the
empty list rather than raising. -/
theorem matchBooksFromOCR_absorbs_search_errors :
    (∀ (fetchItems : List Char → Except Unit (List RawItem))
      (fragments : List OcrFragment) (thr : ℚ),
      matchBooksFromOCR (searchGoogleBooksForCluster fetchItems) fragments thr =
        matchBooksFromOCR (searchGoogleBooksForCluster (fun q =>
          match fetchItems q with
          | .error _ => .ok []
          | .ok items => .ok items)) fragments thr) ∧
    (∀ (fragments : List OcrFragment) (thr : ℚ),
      matchBooksFromOCR (searchGoogleBooksForCluster fun _ => .error ())
        fragments thr = []) := by
  constructor
  · intro fetchItems fragments thr
    rw [searchGoogleBooksForCluster_err_eq fetchItems]
  · intro fragments thr
    exact matchBooksFromOCR_search_empty _ (fun _ => rfl) fragments thr

/-! ## Claim C7 -/

/-- Counterexample to C7 as stated: a candidate with both fields missing is
defaulted to the one-element authors list `["Unknown Author"]`, not to the
empty list the claim describes. -/
theorem toCandidate_defaults_counterexample :
    (toCandidate ⟨"x", none, none⟩).authors = ["Unknown Author".toList] ∧
      ["Unknown Author".toList] ≠ ([] : List (List Char)) :=
  ⟨rfl, by simp⟩

/-- C7 (amended): a candidate record missing its title or its authors is
defaulted by the adapter before scoring — the fallback title `"Untitled"`
and the one-element placeholder authors list `["Unknown Author"]` — so
`scoreMatch` never receives undefined inputs. -/
theorem toCandidate_defaults :
    ∀ item : RawItem,
      (item.title = none → (toCandidate item).title = "Untitled".toList) ∧
      (item.authors = none →
        (toCandidate item).authors = ["Unknown Author".toList]) := by
  intro item
  constructor
  · intro h; simp [toCandidate, jsOrStr, h]
  · intro h; simp [toCandidate, h]

/-- Witness for C7's amended clauses at a concrete record. -/
theorem toCandidate_defaults_witness :
    (toCandidate ⟨"x", none, none⟩).title = "Untitled".toList ∧
      (toCandidate ⟨"x", none, none⟩).authors = ["Unknown Author".toList] :=
  ⟨(toCandidate_defaults ⟨"x", none, none⟩).1 rfl,
    (toCandidate_defaults ⟨"x", none, none⟩).2 rfl⟩

/-! ## Claim C1 -/

/-- A cluster resolution either leaves the state untouched or emits one match
whose id was unseen, clears the threshold, and is recorded as seen. -/
theorem processCluster_cases (search : List Char → List Candidate) (thr : ℚ)
    (seen : List String) (texts : List (List Char)) :
    processCluster search thr seen texts = (none, seen) ∨
      ∃ out : MatchOut,
        processCluster search thr seen texts =
            (some out, out.book.googleBooksId :: seen) ∧
          out.book.googleBooksId ∉ seen ∧ thr ≤ out.book.confidenceScore := by
  rw [processCluster]
  by_cases h3 : (trimWs (joinSpace texts)).length < 3
  · rw [if_pos h3]
    exact Or.inl rfl
  · rw [if_neg h3]
    dsimp only
    by_cases he : (search (trimWs (joinSpace texts))).isEmpty
    · rw [if_pos he]
      exact Or.inl rfl
    · rw [if_neg he]
      rcases hb : (pickBest thr (trimWs (joinSpace texts)) texts
          (search (trimWs (joinSpace texts)))).1 with _ | best
      · simp only [hb]
        exact Or.inl trivial
      · simp only [hb]
        by_cases hcont : seen.contains best.googleBooksId
        · rw [if_pos hcont]
          exact Or.inl rfl
        · rw [if_neg hcont]
          refine Or.inr ⟨⟨best, texts⟩, rfl, ?_, ?_⟩
          · intro hmem
            rw [Bool.not_eq_true] at hcont
            exact absurd hmem (by simpa using hcont)
          · exact ((pickBest_foldl_inv thr (trimWs (joinSpace texts)) texts
              (search (trimWs (joinSpace texts))) (none, 0) le_rfl
              (by simp)).2 best hb).1

/-- Invariant of the aggregation fold: emitted ids are distinct and recorded
in `seenIds`, and every emitted match cleared the threshold. -/
theorem clusterFold_inv (search : List Char → List Candidate) (thr : ℚ) :
    ∀ (cs : List (List (List Char))) (p : List MatchOut × List String),
      (p.1.map fun m => m.book.googleBooksId).Nodup →
      (∀ id ∈ p.1.map fun m => m.book.googleBooksId, id ∈ p.2) →
      (∀ m ∈ p.1, thr ≤ m.book.confidenceScore) →
      ((cs.foldl (clusterStep (processCluster search thr)) p).1.map
          fun m => m.book.googleBooksId).Nodup ∧
        (∀ id ∈ (cs.foldl (clusterStep (processCluster search thr)) p).1.map
            fun m => m.book.googleBooksId,
          id ∈ (cs.foldl (clusterStep (processCluster search thr)) p).2) ∧
        ∀ m ∈ (cs.foldl (clusterStep (processCluster search thr)) p).1,
          thr ≤ m.book.confidenceScore := by
  intro cs
  induction cs with
  | nil => intro p h1 h2 h3; exact ⟨h1, h2, h3⟩
  | cons c cs ih =>
    intro p h1 h2 h3
    rw [List.foldl_cons]
    rcases processCluster_cases search thr p.2 c with hc | ⟨out, hc, hnew, hconf⟩
    · rw [clusterStep, hc]
      exact ih (p.1 ++ (none : Option MatchOut).toList, p.2) (by simpa using h1)
        (by simpa using h2) (by simpa using h3)
    · rw [clusterStep, hc]
      refine ih _ ?_ ?_ ?_
      · simp only [Option.toList_some, List.map_append, List.map_cons,
          List.map_nil]
        rw [List.nodup_append]
        refine ⟨h1, List.nodup_singleton _, fun id hid hid' => ?_⟩
        rw [List.mem_singleton] at hid'
        exact hnew (hid' ▸ h2 id hid)
      · intro id hid
        simp only [Option.toList_some, List.map_append, List.map_cons,
          List.map_nil, List.mem_append, List.mem_singleton] at hid
        rcases hid with hid | hid
        · exact List.mem_cons_of_mem _ (h2 id hid)
        · exact hid ▸ List.mem_cons_self _ _
      · intro m hm
        simp only [Option.toList_some, List.mem_append, List.mem_singleton] at hm
        rcases hm with hm | hm
        · exact h3 m hm
        · exact hm ▸ hconf

/-- C1: for every fragment input, every injected search behavior and every
threshold, the aggregator's output contains no two matches with the same
`googleBooksId`, and every match's confidence clears the threshold. -/
theorem matchBooksFromOCR_invariants :
    ∀ (search : List Char → List Candidate) (fragments : List OcrFragment)
      (thr : ℚ),
      ((matchBooksFromOCR search fragments thr).map
        fun m => m.book.googleBooksId).Nodup ∧
      ∀ m ∈ matchBooksFromOCR search fragments thr,
        thr ≤ m.book.confidenceScore := by
  intro search fragments thr
  rw [matchBooksFromOCR]
  split
  · simp
  · rw [batchFold_eq_flat]
    have hinv := clusterFold_inv search thr
      (chunks5 (clusterFragments fragments 80)).flatten ([], [])
      (by simp) (by simp) (by simp)
    set L := ((chunks5 (clusterFragments fragments 80)).flatten.foldl
      (clusterStep (processCluster search thr)) ([], [])).1 with hL
    have hperm : (List.insertionSort confGe L).Perm L :=
      List.perm_insertionSort confGe L
    constructor
    · exact ((hperm.map fun m => m.book.googleBooksId).nodup_iff).mpr hinv.1
    · intro m hm
      exact hinv.2.2 m (hperm.mem_iff.mp hm)

/-! ## Claim C10 -/

/-- The per-cluster resolution body with the `queryText.length < 3` guard
removed — the comparison definition for the unreachability statement: on
clusters produced by `clusterFragments` the guard can never fire. -/
def processClusterNoGuard (search : List Char → List Candidate)
    (confidenceThreshold : ℚ) (seen : List String)
    (clusterTexts : List (List Char)) : Option MatchOut × List String :=
  let queryText := trimWs (joinSpace clusterTexts)
  let results := search queryText
  if results.isEmpty then (none, seen)
  else
    match (pickBest confidenceThreshold queryText clusterTexts results).1 with
    | some best =>
      if seen.contains best.googleBooksId then (none, seen)
      else (some ⟨best, clusterTexts⟩, best.googleBooksId :: seen)
    | none => (none, seen)

/-- `matchBooksFromOCR` with the short-query guard removed from its
per-cluster body. -/
def matchBooksFromOCRNoGuard (search : List Char → List Candidate)
    (fragments : List OcrFragment) (confidenceThreshold : ℚ) : List MatchOut :=
  let clusters := clusterFragments fragments 80
  if clusters.isEmpty then []
  else
    List.insertionSort confGe
      ((chunks5 clusters).foldl
        (batchStep (processClusterNoGuard search confidenceThreshold)) ([], [])).1

theorem processCluster_eq_noGuard (search : List Char → List Candidate)
    (thr : ℚ) (seen : List String) (texts : List (List Char))
    (h : ¬(trimWs (joinSpace texts)).length < 3) :
    processCluster search thr seen texts =
      processClusterNoGuard search thr seen texts := by
  rw [processCluster, processClusterNoGuard, if_neg h]

/-- C10: every cluster emitted by `clusterFragments` has a space-joined,
trimmed text of length at least 3, and since the aggregator rebuilds its
query as exactly that text, removing the resolver's `query length < 3`
branch does not change `matchBooksFromOCR` on any input — the branch is
unreachable for clusters produced by the pipeline's own clusterer. -/
theorem shortQuery_guard_unreachable :
    (∀ (fragments : List OcrFragment) (prox : ℚ) (c : List (List Char)),
      c ∈ clusterFragments fragments prox →
        3 ≤ (trimWs (joinSpace c)).length) ∧
    (∀ (search : List Char → List Candidate) (fragments : List OcrFragment)
      (thr : ℚ),
      matchBooksFromOCR search fragments thr =
        matchBooksFromOCRNoGuard search fragments thr) := by
  have hmem : ∀ (fragments : List OcrFragment) (prox : ℚ) (c : List (List Char)),
      c ∈ clusterFragments fragments prox →
        3 ≤ (trimWs (joinSpace c)).length := by
    intro fragments prox c hc
    rw [clusterFragments] at hc
    simpa using (List.mem_filter.mp hc).2
  refine ⟨hmem, ?_⟩
  intro search fragments thr
  rw [matchBooksFromOCR, matchBooksFromOCRNoGuard]
  by_cases hce : (clusterFragments fragments 80).isEmpty
  · rw [if_pos hce, if_pos hce]
  · rw [if_neg hce, if_neg hce, batchFold_eq_flat, batchFold_eq_flat]
    have hfold :
        (chunks5 (clusterFragments fragments 80)).flatten.foldl
            (clusterStep (processCluster search thr)) ([], []) =
          (chunks5 (clusterFragments fragments 80)).flatten.foldl
            (clusterStep (processClusterNoGuard search thr)) ([], []) := by
      refine foldl_congr_mem _ _ _ ([], []) fun x hx s => ?_
      rw [chunks5_flatten] at hx
      rw [clusterStep, clusterStep,
        processCluster_eq_noGuard search thr s.2 x
          (by have := hmem fragments 80 x hx; omega)]
    rw [hfold]

/-- Witness for C10's per-cluster clause at a concrete input. -/
theorem shortQuery_guard_unreachable_witness :
    3 ≤ (trimWs (joinSpace ["abc".toList, "def".toList])).length :=
  shortQuery_guard_unreachable.1 [fragC3a, fragC3b] 80
    ["abc".toList, "def".toList] (by rw [clusterFragments_c3ab]; simp)

/-! ## Claim C9 -/

/-- The query of the end-to-end scenario. -/
def queryC9 : List Char := "Dune Frank Herbert".toList

/-- The single spine's texts in top-to-bottom order. -/
def textsC9 : List (List Char) := ["Dune".toList, "Frank".toList, "Herbert".toList]

/-- Three fragments on one spine: horizontal centers `50`, `52`, `53`
(within the default proximity), stacked top to bottom. -/
def fragsC9 : List OcrFragment :=
  [⟨"Dune".toList, ⟨30, 10, 40, 12⟩⟩,
   ⟨"Frank".toList, ⟨32, 30, 40, 12⟩⟩,
   ⟨"Herbert".toList, ⟨33, 50, 40, 12⟩⟩]

/-- The mocked provider's single candidate. -/
def candC9 : Candidate := ⟨"dune1", "Dune".toList, ["Frank Herbert".toList]⟩

/-- The mocked search: one candidate for the query `"Dune Frank Herbert"`,
nothing otherwise. -/
def searchC9 : List Char → List Candidate := fun q =>
  if q = queryC9 then [candC9] else []

/-- The match the aggregator actually returns in the scenario. -/
def bookC9 : MatchedBook :=
  ⟨"dune1", "Dune".toList, ["Frank Herbert".toList], 57 / 125, textsC9⟩

/-- The scenario's score: title similarity `2/9` (the 18-character cluster
text against the 4-character title), author signal `1` (via the part
`"herbert"`; `"frank"` is filtered out by the `> 0.3` pre-filter at `5/18`),
no length penalty, so `round3(2/9 * 0.7 + 0.3) = 0.456`. -/
theorem scoreMatch_c9 :
    scoreMatch queryC9 ("Dune".toList) ["Frank Herbert".toList] = 57 / 125 := by
  have hnc : normalizeText queryC9 = "dune frank herbert".toList := by decide
  have hnt : normalizeText ("Dune".toList) = "dune".toList := by decide
  have hts : normalizedSimilarity ("dune frank herbert".toList) ("dune".toList) = 2 / 9 := by
    rw [normalizedSimilarity_of_sublist
        (show ("dune".toList).Sublist ("dune frank herbert".toList) from by decide)
        (by decide),
      show ("dune frank herbert".toList).length = 18 from by decide,
      show ("dune".toList).length = 4 from by decide]
    norm_num
  have h7 : normalizedSimilarity ("dune frank herbert".toList) ("herbert".toList) = 7 / 18 := by
    rw [normalizedSimilarity_of_sublist
        (show ("herbert".toList).Sublist ("dune frank herbert".toList) from by decide)
        (by decide),
      show ("dune frank herbert".toList).length = 18 from by decide,
      show ("herbert".toList).length = 7 from by decide]
    norm_num
  have hauth : authorDetected ("dune frank herbert".toList) ["Frank Herbert".toList] = true := by
    rw [authorDetected_iff]
    refine ⟨"Frank Herbert".toList, by simp, "herbert".toList, by decide, by decide, ?_,
      Or.inl (by decide)⟩
    rw [h7]; norm_num
  simp only [scoreMatch, hnc, hnt, hts, hauth, if_true]
  rw [show ("dune frank herbert".toList).length = 18 from by decide]
  norm_num
  rw [round3_eq (41 / 90) 456 (by norm_num) (by norm_num)]
  norm_num

/-- The clusterer groups all three fragments into one spine, top to bottom. -/
theorem clusterFragments_c9 : clusterFragments fragsC9 80 = [textsC9] := by
  norm_num [clusterFragments, rawClusters, List.insertionSort, List.orderedInsert,
    sweep, leCenter, leY, center, fragsC9, textsC9, joinSpace, trimWs, isWsChar]
  all_goals decide

/-- The full pipeline on the scenario. -/
theorem matchBooksFromOCR_c9 :
    matchBooksFromOCR searchC9 fragsC9 (9 / 20) = [⟨bookC9, textsC9⟩] := by
  have hq : trimWs (joinSpace textsC9) = queryC9 := by decide
  have hql : queryC9.length = 18 := by decide
  simp only [matchBooksFromOCR, clusterFragments_c9, List.isEmpty, chunks5,
    List.foldl, batchStep, clusterStep, processCluster, hq, searchC9,
    pickBest, pickStep, candC9]
  simp only [scoreMatch_c9]
  norm_num [hql, bookC9, List.insertionSort, List.orderedInsert]

/-- C9 (amended): on the `"Dune"`/`"Frank"`/`"Herbert"` scenario with the
mocked single-candidate search, the aggregator returns exactly one match,
with `externalId = "dune1"` — but its confidence is `0.456`
(`titleScore = 2/9`, `authorScore = 1`, no length penalty), not `≈ 1.0`:
`scoreMatch` compares the whole cluster text against the title. -/
theorem endToEnd_c9 :
    matchBooksFromOCR searchC9 fragsC9 (9 / 20) = [⟨bookC9, textsC9⟩] ∧
      bookC9.googleBooksId = "dune1" ∧ bookC9.confidenceScore = 57 / 125 :=
  ⟨matchBooksFromOCR_c9, rfl, rfl⟩

/-- Counterexample to C9 as stated: the single returned match's confidence is
`0.456`, far from the claimed `≈ 1.0 = 1.0 × 0.7 + 1.0 × 0.3`. -/
theorem endToEnd_c9_counterexample :
    ((matchBooksFromOCR searchC9 fragsC9 (9 / 20)).map
        fun m => m.book.confidenceScore) = [57 / 125] ∧
      (57 / 125 : ℚ) < 7 / 10 := by
  refine ⟨?_, by norm_num⟩
  rw [matchBooksFromOCR_c9]
  rfl

/-- Witness for C1's per-match clauses at a concrete pipeline run. -/
theorem matchBooksFromOCR_invariants_witness :
    (9 : ℚ) / 20 ≤ bookC9.confidenceScore :=
  (matchBooksFromOCR_invariants searchC9 fragsC9 (9 / 20)).2 ⟨bookC9, textsC9⟩
    (by rw [matchBooksFromOCR_c9]; simp)

end Spined
